import Mathlib

set_option maxRecDepth 100000

/-!
# Verification of a block-based filesystem (fs.c)

This file is a shallow embedding of the filesystem implementation in
`src/fs.c` (the first of the two concatenated drafts, lines 46-712, which
the specification's section references point to), together with proofs and
refutations of the specification's claims.

Modelling conventions:

* The disk image is a `Disk` record holding the superblock, the block
  bitmap (a `Nat → Bool` function, one bit per block), the inode table
  (`Fin MAX_FILES → inode`) and the data blocks
  (`data : Nat → Nat → Nat`, block index → byte offset → byte value).
  The C code addresses all four regions through `lseek`/`read`/`write`
  at non-overlapping offsets; on every executed path data blocks are
  written only at indices returned by `find_free_block`, which lie in
  `[10, MAX_BLOCKS)`, so modelling the regions as separate fields is
  faithful.
* Machine integers (`int` fields of the superblock and inode) are `Int`.
  Sizes involved stay far below 2^31, so overflow does not occur and is
  not modelled.
* C strings are `String`; `NULL` pointers become `Option.none`;
  `strncpy(dst, src, n)` becomes `String.take n`, and `strcmp == 0`
  becomes string equality.
* The uninitialized stack array `unsigned char bitmap[MAX_BLOCKS/8]` in
  `fs_format` is modelled by an explicit parameter `g : Nat → Bool`
  carrying the arbitrary initial contents of that memory (bit-indexed).
* The `int` return codes of the C functions are kept as `Int` results;
  fallible lookups (`find_inode`, `find_free_inode` returning `-1`)
  become `Option (Fin MAX_FILES)`.
-/

/-! ## Constants (from fs.h) -/

def BLOCK_SIZE : Nat := 4096
def MAX_BLOCKS : Nat := 2560
def MAX_FILES : Nat := 256
def MAX_FILENAME : Nat := 28
def MAX_DIRECT_BLOCKS : Nat := 12

/-! ## Data model (from fs.h) -/

/-- The superblock structure of fs.h: filesystem metadata stored in block 0. -/
structure superblock where
  total_blocks : Int
  block_size : Int
  free_blocks : Int
  total_inodes : Int
  free_inodes : Int
deriving DecidableEq, Repr

/-- The inode structure of fs.h.  `blocks` is the array
`int blocks[MAX_DIRECT_BLOCKS]`, modelled as a function on `Nat` of which
only indices `< MAX_DIRECT_BLOCKS` are ever accessed (every loop in fs.c
over this array is bounded by `MAX_DIRECT_BLOCKS`). -/
structure inode where
  used : Bool
  name : String
  size : Int
  blocks : Nat → Int

/-- The persistent disk image: superblock (block 0), block bitmap
(block 1, bit `b` = block `b` in use), inode table (blocks 2-9) and the
data blocks. -/
structure Disk where
  sb : superblock
  bitmap : Nat → Bool
  inodes : Fin MAX_FILES → inode
  data : Nat → Nat → Nat

/-- The process-wide filesystem state: the `is_mounted` flag of fs.c plus
the disk image behind `disk_fd`. -/
structure FS where
  mounted : Bool
  disk : Disk

/-! ## Helper functions of fs.c -/

/-- `write_inode(inode_num, source)`: read the table, replace slot
`inode_num`, write the table back; net effect is a single-slot update. -/
def writeInode (d : Disk) (i : Fin MAX_FILES) (ino : inode) : Disk :=
  { d with inodes := Function.update d.inodes i ino }

/-- `read_inode(inode_num, target)`: returns slot `inode_num` of the table. -/
def readInode (d : Disk) (i : Fin MAX_FILES) : inode := d.inodes i

/-- Writing the superblock back to block 0. -/
def writeSB (d : Disk) (sb : superblock) : Disk := { d with sb := sb }

/-- `write(disk_fd, ...)` of `cnt` bytes into data block `b` starting at
its byte 0 (the code always writes from the start of a block): bytes
`[0, cnt)` of the block become `src 0, ..., src (cnt-1)`, the rest of the
block keeps its previous contents. -/
def writeData (d : Disk) (b : Nat) (src : Nat → Nat) (cnt : Nat) : Disk :=
  let blk := fun off => if off < cnt then src off else d.data b off
  { d with data := Function.update d.data b blk }

/-- `find_inode(filename)`: first inode that is used and whose name equals
`filename`. -/
def findInode (d : Disk) (f : String) : Option (Fin MAX_FILES) :=
  (List.finRange MAX_FILES).find? (fun i => (d.inodes i).used && (d.inodes i).name == f)

/-- `find_free_inode()`: first inode with `used = 0`. -/
def findFreeInode (d : Disk) : Option (Fin MAX_FILES) :=
  (List.finRange MAX_FILES).find? (fun i => !(d.inodes i).used)

/-- The list of data-block indices `[10, MAX_BLOCKS)`. -/
def dataRange : List Nat := List.range' 10 (MAX_BLOCKS - 10)

/-- The free-block count that fs_write computes from the bitmap: the number
of clear bits over the data range `[10, MAX_BLOCKS)`. -/
def countFreeBits (bm : Nat → Bool) : Nat :=
  dataRange.countP (fun b => !bm b)

/-- `find_free_block()`: first-fit scan of bits `[10, MAX_BLOCKS)`; on
failure, if the superblock claims free blocks remain, correct its count to
0 and persist it. -/
def findFreeBlock (d : Disk) : Int × Disk :=
  match dataRange.find? (fun b => !d.bitmap b) with
  | some b => ((b : Int), d)
  | none =>
    if d.sb.free_blocks > 0 then
      (-1, writeSB d { d.sb with free_blocks := 0 })
    else (-1, d)

/-- `mark_block_used(block_num)`: set bit `block_num`; out-of-range indices
are silently ignored. -/
def markBlockUsed (d : Disk) (b : Int) : Disk :=
  if b < 0 ∨ (MAX_BLOCKS : Int) ≤ b then d
  else { d with bitmap := Function.update d.bitmap b.toNat true }

/-- `mark_block_free(block_num)`: clear bit `block_num`; out-of-range
indices are silently ignored. -/
def markBlockFree (d : Disk) (b : Int) : Disk :=
  if b < 0 ∨ (MAX_BLOCKS : Int) ≤ b then d
  else { d with bitmap := Function.update d.bitmap b.toNat false }

/-! ## fs_format -/

/-- The inode the format loop writes into every slot. -/
def emptyInode : inode :=
  { used := false, name := "", size := 0, blocks := fun _ => -1 }

/-- The bitmap produced by fs_format from the uninitialized stack array
`g`.  The code ORs bit 0 (`bitmap[0] |= 1`), then ORs bit 0 of byte 1 --
which is bit 8, not block 1's bit (`bitmap[1] |= (1 << 0)` with the
comment "mark block 1 as used") -- then ORs bits 2..9 in a loop, then
clears bits 10..MAX_BLOCKS-1 in a loop.  Bit 1 is never written. -/
def formatBitmap (g : Nat → Bool) : Nat → Bool :=
  let b1 := Function.update g 0 true
  let b2 := Function.update b1 8 true
  let b3 := (List.range' 2 8).foldl (fun bm i => Function.update bm i true) b2
  dataRange.foldl (fun bm i => Function.update bm i false) b3

/-- The superblock fs_format writes. -/
def formatSB : superblock :=
  { total_blocks := MAX_BLOCKS, block_size := BLOCK_SIZE,
    free_blocks := (MAX_BLOCKS : Int) - 1 - 1 - 8,
    total_inodes := MAX_FILES, free_inodes := MAX_FILES }

/-- `fs_format(disk_path)`.  `g` is the uninitialized contents of the
local bitmap array.  Reuses the previous image's data blocks (the file is
opened with `O_CREAT` without truncation and only blocks 0-9 and the very
last byte are written); the single byte written at offset
`10*1024*1024 - 1` lands at offset `BLOCK_SIZE - 1` of the last block. -/
def fsFormat (s : FS) (g : Nat → Bool) : Int × FS :=
  if s.mounted then (-1, s)
  else
    let lastBlk := fun off => if off = BLOCK_SIZE - 1 then 0
                              else s.disk.data (MAX_BLOCKS - 1) off
    let d1 : Disk := { sb := formatSB, bitmap := formatBitmap g,
                       inodes := fun _ => emptyInode,
                       data := Function.update s.disk.data (MAX_BLOCKS - 1) lastBlk }
    (0, { mounted := false, disk := d1 })

/-! ## fs_mount / fs_unmount -/

/-- `fs_mount(disk_path)`: validate the image; on success set the mounted
flag.  The byte-range check on the bitmap (`bitmap[i] < 0 || bitmap[i] >
255`) is a tautology on `unsigned char` and has no observable effect, so
it is not represented. -/
def fsMount (s : FS) : Int × FS :=
  if s.mounted then (-1, s)
  else
    if (List.finRange MAX_FILES).any
        (fun i => (s.disk.inodes i).used && decide ((s.disk.inodes i).size < 0)) then
      (-1, s)
    else if ¬ (List.range 10).all (fun b => s.disk.bitmap b) then
      (-1, s)
    else if s.disk.sb.total_blocks ≠ (MAX_BLOCKS : Int) ∨
            s.disk.sb.block_size ≠ (BLOCK_SIZE : Int) ∨
            s.disk.sb.total_inodes ≠ (MAX_FILES : Int) then
      (-1, s)
    else (0, { s with mounted := true })

/-- `fs_unmount()`: clear the mounted flag and close the handle. -/
def fsUnmount (s : FS) : FS := { s with mounted := false }

/-! ## fs_create -/

/-- `fs_create(filename)`. -/
def fsCreate (s : FS) (filename : Option String) : Int × FS :=
  if s.mounted = false then (-3, s)
  else match filename with
  | none => (-3, s)
  | some f =>
    if f.length = 0 ∨ f.length > 28 then (-3, s)
    else match findInode s.disk f with
    | some _ => (-1, s)
    | none =>
      match findFreeInode s.disk with
      | none => (-2, s)
      | some idx =>
        let newInode : inode :=
          { used := true, size := 0, name := f.take 28, blocks := fun _ => -1 }
        let d1 := writeInode s.disk idx newInode
        let sb1 := { d1.sb with free_inodes := d1.sb.free_inodes - 1 }
        (0, { s with disk := writeSB d1 sb1 })

/-! ## fs_delete -/

/-- The block-freeing loop of fs_delete: for each entry with
`blocks[i] >= 0`, clear its bitmap bit.  (The entries are reset to -1 on
the local copy in the same loop; reflected below in `fsDelete`.) -/
def deleteFreeBlocks (d : Disk) (ino : inode) : Disk :=
  (List.range MAX_DIRECT_BLOCKS).foldl
    (fun d' j => if ino.blocks j ≥ 0 then markBlockFree d' (ino.blocks j) else d') d

/-- `fs_delete(filename)`. -/
def fsDelete (s : FS) (filename : Option String) : Int × FS :=
  if s.mounted = false then (-2, s)
  else match filename with
  | none => (-2, s)
  | some f =>
    if f.length = 0 ∨ f.length > 28 then (-2, s)
    else match findInode s.disk f with
    | none => (-1, s)
    | some idx =>
      let ino := readInode s.disk idx
      let d1 := deleteFreeBlocks s.disk ino
      let blocksFreed :=
          ((List.range MAX_DIRECT_BLOCKS).filter (fun j => ino.blocks j ≥ 0)).length
      let blocks1 := fun j => if ino.blocks j ≥ 0 then -1 else ino.blocks j
      let ino1 := { ino with used := false, size := 0, blocks := blocks1 }
      let d2 := writeInode d1 idx ino1
      let sb1 := { d2.sb with
                   free_blocks := d2.sb.free_blocks + blocksFreed,
                   free_inodes := d2.sb.free_inodes + 1 }
      (0, { s with disk := writeSB d2 sb1 })

/-! ## fs_write -/

/-- The byte count written into iteration `i`'s block: `size % BLOCK_SIZE`
for the final block of a size that is not a whole multiple, `BLOCK_SIZE`
otherwise. -/
def cntFor (size : Int) (numBlocks i : Nat) : Nat :=
  if i = numBlocks - 1 ∧ size % (BLOCK_SIZE : Int) ≠ 0
  then (size % (BLOCK_SIZE : Int)).toNat else BLOCK_SIZE

/-- The allocation/copy loop of fs_write (`for i in [0, num_blocks)`),
written with the number of remaining iterations (`numBlocks - i`) as the
structural recursion argument.  On each iteration: find a free block (on
failure persist the superblock and the partially-filled inode and return
-2), record it in slot `i`, mark it used, decrement the local free count
and copy this iteration's bytes.  After the last iteration the inode is
finalized (`used = true`, `size = size`) and inode and superblock are
persisted. -/
def fsWriteLoop (idx : Fin MAX_FILES) (src : Nat → Nat) (size : Int)
    (numBlocks : Nat) :
    Nat → Nat → Disk → inode → superblock → Int × Disk
  | 0, _, d, ino, sb =>
    let ino1 := { ino with used := true, size := size }
    let d1 := writeInode d idx ino1
    (0, writeSB d1 sb)
  | fuel + 1, i, d, ino, sb =>
    match findFreeBlock d with
    | (blk, d1) =>
      if blk < 0 then
        (-2, writeInode (writeSB d1 sb) idx ino)
      else
        let ino1 := { ino with blocks := Function.update ino.blocks i blk }
        let d2 := markBlockUsed d1 blk
        let sb1 := { sb with free_blocks := sb.free_blocks - 1 }
        let d3 := writeData d2 blk.toNat (fun off => src (i * BLOCK_SIZE + off))
                    (cntFor size numBlocks i)
        fsWriteLoop idx src size numBlocks fuel (i + 1) d3 ino1 sb1

/-- The free-existing-blocks loop of fs_write: for each non-sentinel entry
clear its bitmap bit.  (The inode's entries are reset to -1 in the same
loop; the reset is applied to the local copy, reflected below in
`fsWrite`.) -/
def freeOldBlocks (d : Disk) (ino : inode) : Disk :=
  (List.range MAX_DIRECT_BLOCKS).foldl
    (fun d' j => if ino.blocks j ≠ -1 then markBlockFree d' (ino.blocks j) else d')
    d

/-- `fs_write(filename, data, size)`.  `dataOpt = none` models a NULL data
pointer. -/
def fsWrite (s : FS) (filename : Option String) (dataOpt : Option (Nat → Nat))
    (size : Int) : Int × FS :=
  if s.mounted = false then (-3, s)
  else match filename with
  | none => (-3, s)
  | some f =>
    if f.length = 0 ∨ f.length > 28 then (-3, s)
    else match dataOpt with
    | none => (-3, s)
    | some src =>
      if size < 0 then (-3, s)
      else match findInode s.disk f with
      | none => (-1, s)
      | some idx =>
        let ino := readInode s.disk idx
        let numBlocks := ((size + (BLOCK_SIZE : Int) - 1) / (BLOCK_SIZE : Int)).toNat
        if numBlocks > MAX_DIRECT_BLOCKS then (-2, s)
        else
          let old := ((List.range MAX_DIRECT_BLOCKS).filter
              (fun j => ino.blocks j ≠ -1)).length
          let freeInBitmap := countFreeBits s.disk.bitmap
          let sb0 := s.disk.sb
          let sb1 := if (freeInBitmap : Int) < sb0.free_blocks
                     then { sb0 with free_blocks := freeInBitmap } else sb0
          let d1 := if (freeInBitmap : Int) < sb0.free_blocks
                    then writeSB s.disk sb1 else s.disk
          if (numBlocks : Int) > sb1.free_blocks + old then (-2, { s with disk := d1 })
          else
            let d2 := freeOldBlocks d1 ino
            let blocks1 := fun j => if ino.blocks j ≠ -1 then -1 else ino.blocks j
            let ino1 := { ino with blocks := blocks1 }
            let sb2 := { sb1 with free_blocks := sb1.free_blocks + old }
            let d3 := writeSB d2 sb2
            let (ret, d4) := fsWriteLoop idx src size numBlocks numBlocks 0 d3 ino1 sb2
            (ret, { s with disk := d4 })

/-! ## fs_read -/

/-- The copy loop of fs_read: `for (i = 0; i < MAX_DIRECT_BLOCKS &&
bytes_read < size; i++)`, skipping sentinel entries, reading
`min(size - bytes_read, BLOCK_SIZE)` bytes from each data block. -/
def fsReadLoop (d : Disk) (ino : inode) (sz : Int) :
    Nat → Int → List Nat → Int × List Nat
  | i, bytesRead, buf =>
    if h : i < MAX_DIRECT_BLOCKS then
      if bytesRead < sz then
        if ino.blocks i ≠ -1 then
          let cnt : Nat := if sz - bytesRead < (BLOCK_SIZE : Int)
                           then (sz - bytesRead).toNat else BLOCK_SIZE
          let chunk := (List.range cnt).map (fun k => d.data (ino.blocks i).toNat k)
          fsReadLoop d ino sz (i + 1) (bytesRead + cnt) (buf ++ chunk)
        else fsReadLoop d ino sz (i + 1) bytesRead buf
      else (bytesRead, buf)
    else (bytesRead, buf)
termination_by i _ _ => MAX_DIRECT_BLOCKS - i

/-- `fs_read(filename, buffer, size)`.  `bufferOk = false` models a NULL
buffer; the returned list is the bytes copied into the buffer. -/
def fsRead (s : FS) (filename : Option String) (bufferOk : Bool) (size : Int) :
    Int × List Nat × FS :=
  if s.mounted = false then (-3, [], s)
  else match filename with
  | none => (-3, [], s)
  | some f =>
    if f.length = 0 ∨ f.length > 28 then (-3, [], s)
    else if bufferOk = false ∨ size < 0 then (-3, [], s)
    else match findInode s.disk f with
    | none => (-1, [], s)
    | some idx =>
      let ino := readInode s.disk idx
      let sz := if size > ino.size then ino.size else size
      let (n, buf) := fsReadLoop s.disk ino sz 0 0 []
      (n, buf, s)

/-! ## fs_list -/

/-- The collection loop of fs_list: scan the inode table in order while
`count < max_files`; add each used inode's name (truncated to
`MAX_FILENAME` with forced termination, i.e. to 27 characters) unless an
equal name is already in the output. -/
def fsListLoop (d : Disk) (maxFiles : Int) : List (Fin MAX_FILES) → List String → List String
  | [], acc => acc
  | i :: rest, acc =>
    if (acc.length : Int) < maxFiles then
      let found := acc.any (fun nm => nm == (d.inodes i).name)
      if (d.inodes i).used && !found then
        fsListLoop d maxFiles rest (acc ++ [(d.inodes i).name.take (MAX_FILENAME - 1)])
      else fsListLoop d maxFiles rest acc
    else acc

/-- `fs_list(filenames, max_files)`.  `bufOk = false` models a NULL output
array; the returned list is the names written into the array. -/
def fsList (s : FS) (bufOk : Bool) (maxFiles : Int) : Int × List String × FS :=
  if s.mounted = false then (-1, [], s)
  else if bufOk = false ∨ maxFiles ≤ 0 ∨ maxFiles > (MAX_FILES : Int) then (-1, [], s)
  else
    let names := fsListLoop s.disk maxFiles (List.finRange MAX_FILES) []
    ((names.length : Int), names, s)

/-! ## Concrete states for witnesses -/

/-- A concrete unmounted initial state over an all-zero disk image. -/
def initFS : FS :=
  { mounted := false,
    disk := { sb := formatSB, bitmap := fun _ => false,
              inodes := fun _ => emptyInode, data := fun _ _ => 0 } }

/-- A concrete mounted state with a canonical empty image: reserved bits
set, data bits clear, all inodes free, counters consistent. -/
def mountedEmptyFS : FS :=
  { mounted := true,
    disk := { sb := formatSB, bitmap := fun b => decide (b < 10),
              inodes := fun _ => emptyInode, data := fun _ _ => 0 } }

/-! ## C6: operations refuse to run when unmounted -/

/-- C6: when `mounted` is false, fs_create, fs_write and fs_read return
-3, fs_delete returns -2, fs_list returns -1, and in every case the state
(hence the disk image) is left unchanged, for all argument values. -/
theorem unmounted_ops_refuse (s : FS) (h : s.mounted = false)
    (f g : Option String) (dat : Option (Nat → Nat)) (n m : Int) (b bl : Bool) :
    fsCreate s f = (-3, s) ∧ fsWrite s f dat n = (-3, s) ∧
    fsRead s f b n = (-3, [], s) ∧ fsDelete s g = (-2, s) ∧
    fsList s bl m = (-1, [], s) := by
  refine ⟨?_, ?_, ?_, ?_, ?_⟩ <;>
    simp [fsCreate, fsWrite, fsRead, fsDelete, fsList, h]

/-- Witness for C6 at a concrete unmounted state and concrete arguments. -/
theorem unmounted_ops_refuse_witness :
    initFS.mounted = false ∧
    (fsCreate initFS (some "a") = (-3, initFS) ∧
     fsWrite initFS (some "a") (some fun _ => 0) 5 = (-3, initFS) ∧
     fsRead initFS (some "a") true 5 = (-3, [], initFS) ∧
     fsDelete initFS (some "a") = (-2, initFS) ∧
     fsList initFS true 5 = (-1, [], initFS)) :=
  ⟨rfl, unmounted_ops_refuse initFS rfl (some "a") (some "a") (some fun _ => 0) 5 5 true true⟩

/-! ## C10: fs_read and fs_list never modify the disk image -/

/-- C10: for every state and every arguments, valid or invalid, fs_read
and fs_list return the state (superblock, bitmap, inode table and data
blocks) unchanged. -/
theorem read_list_pure (s : FS) (f : Option String) (b bl : Bool) (n m : Int) :
    (fsRead s f b n).2.2 = s ∧ (fsList s bl m).2.2 = s := by
  constructor
  · unfold fsRead
    split
    · rfl
    · split
      · rfl
      · split
        · rfl
        · split
          · rfl
          · split <;> rfl
  · unfold fsList
    split
    · rfl
    · split <;> rfl

/-! ## C8: fs_create filename-length boundaries -/

/-- C8: on a mounted filesystem with a free inode and no existing file of
the given name, fs_create succeeds for a name of length exactly 28 and
returns -3 for names of length 29 or more, for the empty name, and for a
NULL name. -/
theorem create_name_boundaries (s : FS) (f : String) (hm : s.mounted = true)
    (hfree : (findFreeInode s.disk).isSome = true)
    (hnone : findInode s.disk f = none) :
    (f.length = 28 → (fsCreate s (some f)).1 = 0) ∧
    (∀ f2 : String, f2.length ≥ 29 → (fsCreate s (some f2)).1 = -3) ∧
    (∀ f3 : String, f3.length = 0 → (fsCreate s (some f3)).1 = -3) ∧
    (fsCreate s none).1 = -3 := by
  refine ⟨?_, ?_, ?_, ?_⟩
  · intro h28
    obtain ⟨idx, hidx⟩ := Option.isSome_iff_exists.mp hfree
    simp [fsCreate, hm, h28, hnone, hidx]
  · intro f2 h29
    have : f2.length > 28 := by omega
    simp [fsCreate, hm, this]
  · intro f3 h0
    simp [fsCreate, hm, h0]
  · simp [fsCreate, hm]

/-- Witness for C8 at the concrete empty mounted state with a 28-character
name, a 29-character name and the empty name. -/
theorem create_name_boundaries_witness :
    (mountedEmptyFS.mounted = true ∧
     (findFreeInode mountedEmptyFS.disk).isSome = true ∧
     findInode mountedEmptyFS.disk "abcdefghijklmnopqrstuvwxyzab" = none) ∧
    ((fsCreate mountedEmptyFS (some "abcdefghijklmnopqrstuvwxyzab")).1 = 0 ∧
     (fsCreate mountedEmptyFS (some "abcdefghijklmnopqrstuvwxyzabc")).1 = -3 ∧
     (fsCreate mountedEmptyFS (some "")).1 = -3 ∧
     (fsCreate mountedEmptyFS none).1 = -3) := by
  have h := create_name_boundaries mountedEmptyFS "abcdefghijklmnopqrstuvwxyzab"
    rfl rfl rfl
  exact ⟨⟨rfl, rfl, rfl⟩,
    h.1 rfl,
    h.2.1 "abcdefghijklmnopqrstuvwxyzabc" (by decide),
    h.2.2.1 "" rfl,
    h.2.2.2⟩

/-! ## C3 / C2: the fs_format block-1 bitmap bug

`fs_format` never writes the bitmap bit of block 1: the line intended to
mark block 1 (`bitmap[1] |= (1 << 0)`, comment "mark block 1 as used
(block bitmap)") sets bit 0 of byte 1, which is block 8's bit.  Block 1's
bit keeps the uninitialized contents of the stack array.  When that
uninitialized bit is 0, the formatted image is not canonical, and
`fs_mount` (which requires every bit of blocks [0,10) to be set) rejects
the image that `fs_format` just produced. -/

/-- Applying a fold of updates with a constant value: the result maps
every member of the list to that value and everything else unchanged. -/
theorem foldl_update_apply (l : List Nat) (v : Bool) (bm : Nat → Bool) (b : Nat) :
    (l.foldl (fun f i => Function.update f i v) bm) b = if b ∈ l then v else bm b := by
  induction l generalizing bm with
  | nil => simp
  | cons x xs ih =>
    simp only [List.foldl_cons, ih, List.mem_cons]
    by_cases hx : b = x <;> by_cases hm : b ∈ xs <;>
      simp [hx, hm, Function.update_apply]

/-- Pointwise description of the bitmap fs_format produces: data blocks
cleared, blocks 0 and 2-9 set, block 1 (and anything past the image) left
at the uninitialized value `g`. -/
theorem formatBitmap_apply (g : Nat → Bool) (b : Nat) :
    formatBitmap g b =
      if 10 ≤ b ∧ b < MAX_BLOCKS then false
      else if (2 ≤ b ∧ b < 10) ∨ b = 0 then true
      else g b := by
  unfold formatBitmap dataRange
  rw [foldl_update_apply, foldl_update_apply]
  simp only [List.mem_range'_1, Function.update_apply, MAX_BLOCKS]
  norm_num
  by_cases h8 : b = 8
  · subst h8; simp
  · simp [h8, Bool.or_assoc]

/-- C3 (code bug): formatting with an all-zero uninitialized stack array
returns 0 but leaves block 1's bitmap bit clear -- not the canonical image
the claim describes -- while block 8's bit (the misdirected write) is set. -/
theorem format_leaves_block1_unset :
    (fsFormat initFS (fun _ => false)).1 = 0 ∧
    (fsFormat initFS (fun _ => false)).2.disk.bitmap 1 = false ∧
    (fsFormat initFS (fun _ => false)).2.disk.bitmap 0 = true ∧
    (fsFormat initFS (fun _ => false)).2.disk.bitmap 8 = true := by
  refine ⟨rfl, ?_, ?_, ?_⟩ <;>
    simp [fsFormat, initFS, formatBitmap_apply]

/-- C2 (code bug): starting from the unmounted initial state with an
all-zero uninitialized stack array, fs_format returns 0 but the very next
fs_mount rejects the image (returns -1, not 0), so the
format-mount-create-write-unmount-mount-read round trip of the claim
cannot even begin. -/
theorem format_then_mount_fails :
    (fsFormat initFS (fun _ => false)).1 = 0 ∧
    (fsMount (fsFormat initFS (fun _ => false)).2).1 = -1 := by
  refine ⟨rfl, ?_⟩
  have hbit : (fsFormat initFS (fun _ => false)).2.disk.bitmap 1 = false := by
    simp [fsFormat, initFS, formatBitmap_apply]
  have hmnt : (fsFormat initFS (fun _ => false)).2.mounted = false := by
    simp [fsFormat, initFS]
  have hany : (List.finRange MAX_FILES).any
      (fun i => ((fsFormat initFS (fun _ => false)).2.disk.inodes i).used &&
        decide (((fsFormat initFS (fun _ => false)).2.disk.inodes i).size < 0)) = false := by
    refine List.any_eq_false.mpr (fun i _ => ?_)
    simp [fsFormat, initFS, emptyInode]
  have hall : (List.range 10).all
      (fun b => (fsFormat initFS (fun _ => false)).2.disk.bitmap b) = false :=
    List.all_eq_false.mpr ⟨1, by decide, by simp [hbit]⟩
  simp [fsMount, hmnt, hany, hall]

/-! ## Component-frame lemmas for the disk helpers -/

@[simp] theorem writeSB_sb (d : Disk) (sb : superblock) : (writeSB d sb).sb = sb := rfl
@[simp] theorem writeSB_bitmap (d : Disk) (sb : superblock) : (writeSB d sb).bitmap = d.bitmap := rfl
@[simp] theorem writeSB_inodes (d : Disk) (sb : superblock) : (writeSB d sb).inodes = d.inodes := rfl
@[simp] theorem writeSB_data (d : Disk) (sb : superblock) : (writeSB d sb).data = d.data := rfl

@[simp] theorem writeInode_sb (d : Disk) (i : Fin MAX_FILES) (ino : inode) :
    (writeInode d i ino).sb = d.sb := rfl
@[simp] theorem writeInode_bitmap (d : Disk) (i : Fin MAX_FILES) (ino : inode) :
    (writeInode d i ino).bitmap = d.bitmap := rfl
@[simp] theorem writeInode_inodes (d : Disk) (i : Fin MAX_FILES) (ino : inode) :
    (writeInode d i ino).inodes = Function.update d.inodes i ino := rfl
@[simp] theorem writeInode_data (d : Disk) (i : Fin MAX_FILES) (ino : inode) :
    (writeInode d i ino).data = d.data := rfl

@[simp] theorem writeData_sb (d : Disk) (b : Nat) (src : Nat → Nat) (c : Nat) :
    (writeData d b src c).sb = d.sb := rfl
@[simp] theorem writeData_bitmap (d : Disk) (b : Nat) (src : Nat → Nat) (c : Nat) :
    (writeData d b src c).bitmap = d.bitmap := rfl
@[simp] theorem writeData_inodes (d : Disk) (b : Nat) (src : Nat → Nat) (c : Nat) :
    (writeData d b src c).inodes = d.inodes := rfl

theorem writeData_data_same (d : Disk) (b : Nat) (src : Nat → Nat) (c : Nat)
    (off : Nat) (h : off < c) : (writeData d b src c).data b off = src off := by
  simp [writeData, h]

theorem writeData_data_other (d : Disk) (b : Nat) (src : Nat → Nat) (c : Nat)
    (b' : Nat) (h : b' ≠ b) : (writeData d b src c).data b' = d.data b' := by
  simp [writeData, Function.update_apply, h]

@[simp] theorem markBlockUsed_sb (d : Disk) (b : Int) : (markBlockUsed d b).sb = d.sb := by
  unfold markBlockUsed; split <;> rfl
@[simp] theorem markBlockUsed_inodes (d : Disk) (b : Int) :
    (markBlockUsed d b).inodes = d.inodes := by
  unfold markBlockUsed; split <;> rfl
@[simp] theorem markBlockUsed_data (d : Disk) (b : Int) : (markBlockUsed d b).data = d.data := by
  unfold markBlockUsed; split <;> rfl

@[simp] theorem markBlockFree_sb (d : Disk) (b : Int) : (markBlockFree d b).sb = d.sb := by
  unfold markBlockFree; split <;> rfl
@[simp] theorem markBlockFree_inodes (d : Disk) (b : Int) :
    (markBlockFree d b).inodes = d.inodes := by
  unfold markBlockFree; split <;> rfl
@[simp] theorem markBlockFree_data (d : Disk) (b : Int) : (markBlockFree d b).data = d.data := by
  unfold markBlockFree; split <;> rfl

theorem markBlockUsed_bitmap_in (d : Disk) (b : Int) (h0 : 0 ≤ b)
    (h1 : b < (MAX_BLOCKS : Int)) :
    (markBlockUsed d b).bitmap = Function.update d.bitmap b.toNat true := by
  unfold markBlockUsed
  rw [if_neg (by omega)]

theorem markBlockFree_bitmap_in (d : Disk) (b : Int) (h0 : 0 ≤ b)
    (h1 : b < (MAX_BLOCKS : Int)) :
    (markBlockFree d b).bitmap = Function.update d.bitmap b.toNat false := by
  unfold markBlockFree
  rw [if_neg (by omega)]

theorem markBlockFree_bitmap_apply (d : Disk) (b : Int) (x : Nat) :
    (markBlockFree d b).bitmap x = if b = (x : Int) ∧ x < MAX_BLOCKS then false else d.bitmap x := by
  unfold markBlockFree
  have hMB : (MAX_BLOCKS : Int) = 2560 := by norm_num [MAX_BLOCKS]
  have hMBn : MAX_BLOCKS = 2560 := by norm_num [MAX_BLOCKS]
  split
  · rename_i h
    rw [hMB] at h
    rw [if_neg]
    rintro ⟨h1, h2⟩
    rw [hMBn] at h2
    omega
  · rename_i h
    rw [hMB] at h
    show Function.update d.bitmap b.toNat false x = _
    rw [Function.update_apply]
    by_cases hbx : b = (x : Int)
    · have hx : x < MAX_BLOCKS := by rw [hMBn]; omega
      rw [if_pos (by omega), if_pos ⟨hbx, hx⟩]
    · rw [if_neg (by omega), if_neg (by rintro ⟨h1, _⟩; exact hbx h1)]

@[simp] theorem findFreeBlock_bitmap (d : Disk) : (findFreeBlock d).2.bitmap = d.bitmap := by
  unfold findFreeBlock; split
  · rfl
  · split <;> rfl

@[simp] theorem findFreeBlock_inodes (d : Disk) : (findFreeBlock d).2.inodes = d.inodes := by
  unfold findFreeBlock; split
  · rfl
  · split <;> rfl

@[simp] theorem findFreeBlock_data (d : Disk) : (findFreeBlock d).2.data = d.data := by
  unfold findFreeBlock; split
  · rfl
  · split <;> rfl

/-! ## dataRange and countFreeBits lemmas -/

theorem mem_dataRange {b : Nat} : b ∈ dataRange ↔ 10 ≤ b ∧ b < MAX_BLOCKS := by
  unfold dataRange
  rw [List.mem_range'_1]
  unfold MAX_BLOCKS
  omega

theorem dataRange_nodup : dataRange.Nodup := by
  unfold dataRange
  exact List.nodup_range' 10 (MAX_BLOCKS - 10)

theorem countFreeBits_congr {bm bm' : Nat → Bool}
    (h : ∀ b, 10 ≤ b → b < MAX_BLOCKS → bm b = bm' b) :
    countFreeBits bm = countFreeBits bm' := by
  unfold countFreeBits
  refine List.countP_congr (fun b hb => ?_)
  rw [mem_dataRange] at hb
  rw [h b hb.1 hb.2]

theorem countFreeBits_split (bm : Nat → Bool) (b : Nat) (hb : b ∈ dataRange) :
    countFreeBits bm
      = (if bm b then 0 else 1) + (dataRange.erase b).countP (fun x => !bm x) := by
  unfold countFreeBits
  have hperm : dataRange.Perm (b :: dataRange.erase b) := List.perm_cons_erase hb
  rw [hperm.countP_eq]
  rw [List.countP_cons]
  cases h : bm b <;> simp [h, Nat.add_comm]

theorem countP_erase_congr (bm bm' : Nat → Bool) (b : Nat)
    (h : ∀ x, x ≠ b → bm x = bm' x) :
    (dataRange.erase b).countP (fun x => !bm x)
      = (dataRange.erase b).countP (fun x => !bm' x) := by
  refine List.countP_congr (fun x hx => ?_)
  have hxb : x ≠ b := by
    intro hc
    subst hc
    exact (dataRange_nodup.not_mem_erase) hx
  rw [h x hxb]

theorem countFreeBits_update_true (bm : Nat → Bool) (b : Nat)
    (h1 : 10 ≤ b) (h2 : b < MAX_BLOCKS) (hf : bm b = false) :
    countFreeBits (Function.update bm b true) + 1 = countFreeBits bm := by
  have hb : b ∈ dataRange := mem_dataRange.mpr ⟨h1, h2⟩
  rw [countFreeBits_split _ b hb, countFreeBits_split bm b hb]
  rw [countP_erase_congr (Function.update bm b true) bm b
    (fun x hx => Function.update_noteq hx _ _)]
  simp [hf]
  omega

theorem countFreeBits_update_false (bm : Nat → Bool) (b : Nat)
    (h1 : 10 ≤ b) (h2 : b < MAX_BLOCKS) (hs : bm b = true) :
    countFreeBits (Function.update bm b false) = countFreeBits bm + 1 := by
  have hb : b ∈ dataRange := mem_dataRange.mpr ⟨h1, h2⟩
  rw [countFreeBits_split _ b hb, countFreeBits_split bm b hb]
  rw [countP_erase_congr (Function.update bm b false) bm b
    (fun x hx => Function.update_noteq hx _ _)]
  simp [hs, Nat.add_comm]

theorem countFreeBits_update_out (bm : Nat → Bool) (b : Nat) (v : Bool)
    (h : ¬ (10 ≤ b ∧ b < MAX_BLOCKS)) :
    countFreeBits (Function.update bm b v) = countFreeBits bm := by
  refine countFreeBits_congr (fun x hx1 hx2 => ?_)
  have : x ≠ b := by
    intro hc
    exact h (hc ▸ ⟨hx1, hx2⟩)
  rw [Function.update_noteq this]

theorem countFreeBits_update_same (bm : Nat → Bool) (b : Nat) (v : Bool)
    (h : bm b = v) :
    countFreeBits (Function.update bm b v) = countFreeBits bm := by
  refine countFreeBits_congr (fun x _ _ => ?_)
  rw [Function.update_apply]
  split
  · rename_i hx
    rw [hx, h]
  · rfl

theorem find?_dataRange_isSome (bm : Nat → Bool) (h : 0 < countFreeBits bm) :
    ∃ b, dataRange.find? (fun x => !bm x) = some b := by
  unfold countFreeBits at h
  obtain ⟨b, hb, hp⟩ := List.countP_pos_iff.mp h
  exact Option.isSome_iff_exists.mp (List.find?_isSome.mpr ⟨b, hb, hp⟩)

theorem find?_dataRange_spec (bm : Nat → Bool) (b : Nat)
    (h : dataRange.find? (fun x => !bm x) = some b) :
    10 ≤ b ∧ b < MAX_BLOCKS ∧ bm b = false := by
  have hmem := List.mem_of_find?_eq_some h
  have hp := List.find?_some h
  rw [mem_dataRange] at hmem
  simp only [Bool.not_eq_true'] at hp
  exact ⟨hmem.1, hmem.2, hp⟩

/-! ## Specification invariants (spec section 8) -/

/-- Number of occurrences of data-block index `b` in the block list of a
single inode (0 when the inode is free). -/
def inoOcc (ino : inode) (b : Nat) : Nat :=
  if ino.used then
    ((Finset.range MAX_DIRECT_BLOCKS).filter (fun j => ino.blocks j = (b : Int))).card
  else 0

/-- Total number of occurrences of data-block index `b` across all used
inodes of a table. -/
def ownCount (tbl : Fin MAX_FILES → inode) (b : Nat) : Nat :=
  ∑ i : Fin MAX_FILES, inoOcc (tbl i) b

/-- Number of free inodes in a table. -/
def freeInodeCount (tbl : Fin MAX_FILES → inode) : Nat :=
  ∑ i : Fin MAX_FILES, if (tbl i).used then 0 else 1

/-- Spec invariant 2 (plus name-free distinctness within one inode): every
non-sentinel block pointer of a used inode is a data-block index in
`[10, MAX_BLOCKS)` whose bitmap bit is set, and no value repeats within
the inode's block list. -/
def WfPointers (d : Disk) : Prop :=
  ∀ i : Fin MAX_FILES, (d.inodes i).used = true → ∀ j, j < MAX_DIRECT_BLOCKS →
    (d.inodes i).blocks j ≠ -1 →
    (10 : Int) ≤ (d.inodes i).blocks j ∧ (d.inodes i).blocks j < (MAX_BLOCKS : Int) ∧
    d.bitmap ((d.inodes i).blocks j).toNat = true ∧
    (∀ k, k < MAX_DIRECT_BLOCKS → k ≠ j → (d.inodes i).blocks k ≠ (d.inodes i).blocks j)

/-- Spec invariant 1: every set bit in the bitmap's data range is stored
in exactly one used inode's block list, counting multiplicity (so no index
appears in two inodes or twice in one inode). -/
def NoOrphans (d : Disk) : Prop :=
  ∀ b : Nat, 10 ≤ b → b < MAX_BLOCKS → d.bitmap b = true → ownCount d.inodes b = 1

/-- Spec invariant 4: the superblock free counters agree with the inode
table and the bitmap. -/
def CountersConsistent (d : Disk) : Prop :=
  d.sb.free_inodes = (freeInodeCount d.inodes : Int) ∧
  d.sb.free_blocks = (countFreeBits d.bitmap : Int)

/-- The conjunction of the consistency invariants. -/
def Consistent (d : Disk) : Prop :=
  NoOrphans d ∧ WfPointers d ∧ CountersConsistent d

/-! ## Counting lemmas for the inode table -/

theorem ownCount_update (tbl : Fin MAX_FILES → inode) (idx : Fin MAX_FILES)
    (ino' : inode) (b : Nat) :
    ownCount (Function.update tbl idx ino') b + inoOcc (tbl idx) b
      = ownCount tbl b + inoOcc ino' b := by
  unfold ownCount
  rw [← Finset.add_sum_erase _ (fun i => inoOcc (Function.update tbl idx ino' i) b)
    (Finset.mem_univ idx)]
  rw [← Finset.add_sum_erase _ (fun i => inoOcc (tbl i) b) (Finset.mem_univ idx)]
  have hcong : ∑ i ∈ Finset.univ.erase idx, inoOcc (Function.update tbl idx ino' i) b
      = ∑ i ∈ Finset.univ.erase idx, inoOcc (tbl i) b := by
    refine Finset.sum_congr rfl (fun i hi => ?_)
    rw [Function.update_noteq (Finset.ne_of_mem_erase hi)]
  rw [hcong, Function.update_same]
  omega

theorem freeInodeCount_update (tbl : Fin MAX_FILES → inode) (idx : Fin MAX_FILES)
    (ino' : inode) :
    freeInodeCount (Function.update tbl idx ino')
        + (if (tbl idx).used then 0 else 1)
      = freeInodeCount tbl + (if ino'.used then 0 else 1) := by
  unfold freeInodeCount
  rw [← Finset.add_sum_erase _
    (fun i => if (Function.update tbl idx ino' i).used then 0 else 1)
    (Finset.mem_univ idx)]
  rw [← Finset.add_sum_erase _ (fun i => if (tbl i).used then 0 else 1)
    (Finset.mem_univ idx)]
  have hcong : (∑ i ∈ Finset.univ.erase idx,
        if (Function.update tbl idx ino' i).used then 0 else 1)
      = ∑ i ∈ Finset.univ.erase idx, if (tbl i).used then 0 else 1 := by
    refine Finset.sum_congr rfl (fun i hi => ?_)
    rw [Function.update_noteq (Finset.ne_of_mem_erase hi)]
  rw [hcong, Function.update_same]
  omega

theorem inoOcc_unused {ino : inode} (h : ino.used = false) (b : Nat) :
    inoOcc ino b = 0 := by
  simp [inoOcc, h]

theorem inoOcc_of_no_slot {ino : inode} {b : Nat}
    (h : ∀ j, j < MAX_DIRECT_BLOCKS → ino.blocks j ≠ (b : Int)) :
    inoOcc ino b = 0 := by
  unfold inoOcc
  split
  · rw [Finset.card_eq_zero, Finset.filter_eq_empty_iff]
    intro j hj
    exact h j (Finset.mem_range.mp hj)
  · rfl

theorem inoOcc_pos {ino : inode} {b : Nat} (hu : ino.used = true)
    {j : Nat} (hj : j < MAX_DIRECT_BLOCKS) (hv : ino.blocks j = (b : Int)) :
    1 ≤ inoOcc ino b := by
  unfold inoOcc
  rw [if_pos hu]
  refine Finset.card_pos.mpr ⟨j, ?_⟩
  simp [Finset.mem_filter, Finset.mem_range, hj, hv]

theorem inoOcc_two {ino : inode} {b : Nat} (hu : ino.used = true)
    {j k : Nat} (hj : j < MAX_DIRECT_BLOCKS) (hk : k < MAX_DIRECT_BLOCKS)
    (hjk : j ≠ k) (hvj : ino.blocks j = (b : Int)) (hvk : ino.blocks k = (b : Int)) :
    2 ≤ inoOcc ino b := by
  unfold inoOcc
  rw [if_pos hu]
  have hsub : ({j, k} : Finset Nat) ⊆
      (Finset.range MAX_DIRECT_BLOCKS).filter (fun x => ino.blocks x = (b : Int)) := by
    intro x hx
    rcases Finset.mem_insert.mp hx with h | h
    · subst h
      simp [Finset.mem_filter, Finset.mem_range, hj, hvj]
    · rw [Finset.mem_singleton.mp h]
      simp [Finset.mem_filter, Finset.mem_range, hk, hvk]
  calc 2 = ({j, k} : Finset Nat).card := (Finset.card_pair hjk).symm
  _ ≤ _ := Finset.card_le_card hsub

theorem ownCount_single_le (tbl : Fin MAX_FILES → inode) (i : Fin MAX_FILES) (b : Nat) :
    inoOcc (tbl i) b ≤ ownCount tbl b := by
  unfold ownCount
  rw [← Finset.add_sum_erase _ (fun x => inoOcc (tbl x) b) (Finset.mem_univ i)]
  exact Nat.le_add_right _ _

theorem ownCount_pair_le (tbl : Fin MAX_FILES → inode) {i k : Fin MAX_FILES}
    (hik : i ≠ k) (b : Nat) :
    inoOcc (tbl i) b + inoOcc (tbl k) b ≤ ownCount tbl b := by
  have h1 : ∑ x ∈ ({i, k} : Finset (Fin MAX_FILES)), inoOcc (tbl x) b
      = inoOcc (tbl i) b + inoOcc (tbl k) b := Finset.sum_pair hik
  calc inoOcc (tbl i) b + inoOcc (tbl k) b
      = ∑ x ∈ ({i, k} : Finset (Fin MAX_FILES)), inoOcc (tbl x) b := h1.symm
  _ ≤ ownCount tbl b :=
      Finset.sum_le_sum_of_subset (Finset.subset_univ _)

/-! ## Characterization of the block-freeing loops -/

section FreeFold

variable (cond : Int → Prop) [DecidablePred cond] (blocks : Nat → Int)

/-- The shape shared by the freeing loops of fs_delete (`cond v = v ≥ 0`)
and fs_write (`cond v = v ≠ -1`). -/
def freeFold (l : List Nat) (d : Disk) : Disk :=
  l.foldl (fun d' j => if cond (blocks j) then markBlockFree d' (blocks j) else d') d

theorem freeFold_cons (a : Nat) (t : List Nat) (d : Disk) :
    freeFold cond blocks (a :: t) d
      = freeFold cond blocks t
          (if cond (blocks a) then markBlockFree d (blocks a) else d) := rfl

theorem freeFold_sb (l : List Nat) (d : Disk) : (freeFold cond blocks l d).sb = d.sb := by
  induction l generalizing d with
  | nil => rfl
  | cons a t ih =>
    rw [freeFold_cons, ih]
    split <;> simp

theorem freeFold_inodes (l : List Nat) (d : Disk) :
    (freeFold cond blocks l d).inodes = d.inodes := by
  induction l generalizing d with
  | nil => rfl
  | cons a t ih =>
    rw [freeFold_cons, ih]
    split <;> simp

theorem freeFold_data (l : List Nat) (d : Disk) :
    (freeFold cond blocks l d).data = d.data := by
  induction l generalizing d with
  | nil => rfl
  | cons a t ih =>
    rw [freeFold_cons, ih]
    split <;> simp

theorem freeFold_bitmap_apply (hcond : ∀ v : Int, 0 ≤ v → cond v)
    (l : List Nat) (d : Disk) (x : Nat) :
    (freeFold cond blocks l d).bitmap x
      = if (∃ j ∈ l, blocks j = (x : Int)) ∧ x < MAX_BLOCKS then false
        else d.bitmap x := by
  induction l generalizing d with
  | nil => simp [freeFold]
  | cons a t ih =>
    rw [freeFold_cons, ih]
    by_cases hx : x < MAX_BLOCKS
    · by_cases he : ∃ j ∈ t, blocks j = (x : Int)
      · rw [if_pos ⟨he, hx⟩, if_pos]
        exact ⟨by obtain ⟨j, hj, hv⟩ := he; exact ⟨j, List.mem_cons_of_mem a hj, hv⟩, hx⟩
      · rw [if_neg (fun h => he h.1)]
        by_cases ha : blocks a = (x : Int)
        · have hc : cond (blocks a) := hcond _ (by rw [ha]; exact Int.natCast_nonneg x)
          rw [if_pos hc, markBlockFree_bitmap_apply, if_pos ⟨ha, hx⟩, if_pos]
          exact ⟨⟨a, List.mem_cons_self a t, ha⟩, hx⟩
        · have hno : ¬ ((∃ j ∈ a :: t, blocks j = (x : Int)) ∧ x < MAX_BLOCKS) := by
            rintro ⟨⟨j, hj, hv⟩, _⟩
            rcases List.mem_cons.mp hj with h | h
            · exact ha (h ▸ hv)
            · exact he ⟨j, h, hv⟩
          rw [if_neg hno]
          split
          · rw [markBlockFree_bitmap_apply, if_neg (fun h => ha h.1)]
          · rfl
    · by_cases hc : cond (blocks a)
      · rw [if_pos hc, markBlockFree_bitmap_apply]
        rw [if_neg (fun h => hx h.2), if_neg (fun h => hx h.2),
            if_neg (fun h => hx h.2)]
      · rw [if_neg hc, if_neg (fun h => hx h.2), if_neg (fun h => hx h.2)]

theorem countFreeBits_markBlockFree_le (d : Disk) (v : Int) :
    countFreeBits d.bitmap ≤ countFreeBits (markBlockFree d v).bitmap := by
  unfold markBlockFree
  split
  · exact Nat.le_refl _
  · rename_i h
    show countFreeBits d.bitmap ≤ countFreeBits (Function.update d.bitmap v.toNat false)
    by_cases hin : 10 ≤ v.toNat ∧ v.toNat < MAX_BLOCKS
    · cases hbit : d.bitmap v.toNat with
      | true =>
        rw [countFreeBits_update_false _ _ hin.1 hin.2 hbit]
        omega
      | false =>
        rw [countFreeBits_update_same _ _ _ hbit]
    · rw [countFreeBits_update_out _ _ _ hin]

theorem freeFold_count_le (l : List Nat) (d : Disk) :
    countFreeBits d.bitmap ≤ countFreeBits (freeFold cond blocks l d).bitmap := by
  induction l generalizing d with
  | nil => exact Nat.le_refl _
  | cons a t ih =>
    rw [freeFold_cons]
    refine Nat.le_trans ?_ (ih _)
    split
    · exact countFreeBits_markBlockFree_le d (blocks a)
    · exact Nat.le_refl _

theorem freeFold_count (hcond : ∀ v : Int, 0 ≤ v → cond v) (l : List Nat) (d : Disk)
    (hnd : l.Nodup)
    (hwf : ∀ j ∈ l, cond (blocks j) →
      (10 : Int) ≤ blocks j ∧ blocks j < (MAX_BLOCKS : Int) ∧
      d.bitmap (blocks j).toNat = true)
    (hdist : ∀ j ∈ l, ∀ k ∈ l, j ≠ k → cond (blocks j) → cond (blocks k) →
      blocks k ≠ blocks j) :
    countFreeBits (freeFold cond blocks l d).bitmap
      = countFreeBits d.bitmap + l.countP (fun j => decide (cond (blocks j))) := by
  induction l generalizing d with
  | nil => simp [freeFold]
  | cons a t ih =>
    have hat : a ∉ t := (List.nodup_cons.mp hnd).1
    have hndt : t.Nodup := (List.nodup_cons.mp hnd).2
    rw [List.countP_cons]
    by_cases hc : cond (blocks a)
    · obtain ⟨h10, hlt, hbit⟩ := hwf a (List.mem_cons_self a t) hc
      have h0 : (0 : Int) ≤ blocks a := by omega
      have htn10 : 10 ≤ (blocks a).toNat := by omega
      have htlt : (blocks a).toNat < MAX_BLOCKS := by
        have : (MAX_BLOCKS : Int) = 2560 := by norm_num [MAX_BLOCKS]
        have : MAX_BLOCKS = 2560 := by norm_num [MAX_BLOCKS]
        omega
      rw [freeFold_cons, if_pos hc, if_pos (decide_eq_true hc)]
      rw [ih (markBlockFree d (blocks a)) hndt ?hwf ?hdist]
      · rw [markBlockFree_bitmap_in _ _ h0 (by omega)]
        rw [countFreeBits_update_false _ _ htn10 htlt hbit]
        omega
      case hwf =>
        intro j hj hcj
        obtain ⟨hj10, hjlt, hjbit⟩ := hwf j (List.mem_cons_of_mem a hj) hcj
        refine ⟨hj10, hjlt, ?_⟩
        rw [markBlockFree_bitmap_apply]
        rw [if_neg]
        · exact hjbit
        · rintro ⟨hv, _⟩
          have hja : j ≠ a := fun hja => hat (hja ▸ hj)
          have := hdist a (List.mem_cons_self a t) j (List.mem_cons_of_mem a hj)
            (fun h => hja h.symm) hc hcj
          apply this
          have : ((blocks j).toNat : Int) = blocks j := by omega
          omega
      case hdist =>
        intro j hj k hk hjk hcj hck
        exact hdist j (List.mem_cons_of_mem a hj) k (List.mem_cons_of_mem a hk) hjk hcj hck
    · rw [freeFold_cons, if_neg hc, if_neg (fun h => hc (of_decide_eq_true h))]
      rw [ih d hndt ?hwf2 ?hdist2]
      · omega
      case hwf2 =>
        intro j hj hcj
        exact hwf j (List.mem_cons_of_mem a hj) hcj
      case hdist2 =>
        intro j hj k hk hjk hcj hck
        exact hdist j (List.mem_cons_of_mem a hj) k (List.mem_cons_of_mem a hk) hjk hcj hck

end FreeFold

/-! ## find_free_block and the allocation loop -/

theorem findFreeBlock_of_free (d : Disk) (h : 0 < countFreeBits d.bitmap) :
    ∃ b : Nat, findFreeBlock d = ((b : Int), d) ∧
      10 ≤ b ∧ b < MAX_BLOCKS ∧ d.bitmap b = false := by
  obtain ⟨b, hb⟩ := find?_dataRange_isSome d.bitmap h
  obtain ⟨h1, h2, h3⟩ := find?_dataRange_spec d.bitmap b hb
  refine ⟨b, ?_, h1, h2, h3⟩
  unfold findFreeBlock
  rw [hb]

theorem findFreeBlock_nonneg (d : Disk) (blk : Int) (d1 : Disk)
    (h : findFreeBlock d = (blk, d1)) (hnn : 0 ≤ blk) :
    ∃ b : Nat, blk = (b : Int) ∧ d1 = d ∧
      10 ≤ b ∧ b < MAX_BLOCKS ∧ d.bitmap b = false := by
  unfold findFreeBlock at h
  cases hf : dataRange.find? (fun x => !d.bitmap x) with
  | some b =>
    rw [hf] at h
    injection h with h1 h2
    obtain ⟨ha, hb2, hc⟩ := find?_dataRange_spec d.bitmap b hf
    exact ⟨b, h1.symm, h2.symm, ha, hb2, hc⟩
  | none =>
    rw [hf] at h
    by_cases hc : d.sb.free_blocks > 0
    · rw [if_pos hc] at h
      injection h with h1 h2
      omega
    · rw [if_neg hc] at h
      injection h with h1 h2
      omega

theorem fsWriteLoop_success (idx : Fin MAX_FILES) (src : Nat → Nat) (size : Int)
    (numBlocks : Nat) :
    ∀ (fuel i : Nat) (d : Disk) (ino : inode) (sb : superblock),
      fuel ≤ countFreeBits d.bitmap →
      (fsWriteLoop idx src size numBlocks fuel i d ino sb).1 = 0 := by
  intro fuel
  induction fuel with
  | zero => intros; rfl
  | succ n ih =>
    intro i d ino sb hfree
    obtain ⟨b, hfb, h10, hlt, hfree_b⟩ := findFreeBlock_of_free d (by omega)
    simp only [fsWriteLoop]
    rw [hfb]
    simp only
    rw [if_neg (by omega)]
    apply ih
    have hbm : (writeData (markBlockUsed d ((b : Nat) : Int)) ((b : Nat) : Int).toNat
        (fun off => src (i * BLOCK_SIZE + off)) (cntFor size numBlocks i)).bitmap
        = Function.update d.bitmap b true := by
      rw [writeData_bitmap, markBlockUsed_bitmap_in _ _ (by omega) (by omega)]
      rw [Int.toNat_natCast]
    rw [hbm]
    have := countFreeBits_update_true d.bitmap b h10 hlt hfree_b
    omega

/-- Full characterization of a successful run of the allocation/copy loop
of fs_write, relative to its entry state: the blocks it picks are
distinct, in the data range and were free on entry; the exit bitmap is
the entry bitmap with exactly those bits set; the free count drops by one
per iteration; the superblock written is the local one with the free
counter decremented per iteration; the inode written has the picked
blocks in slots `[i, numBlocks)` and is finalized with `used = true` and
the requested size; each picked block holds this iteration's bytes of the
source; and data of every block whose bit was set on entry is untouched. -/
theorem fsWriteLoop_spec (idx : Fin MAX_FILES) (src : Nat → Nat) (size : Int)
    (numBlocks : Nat) :
    ∀ (fuel i : Nat) (d : Disk) (ino : inode) (sb : superblock) (d' : Disk),
      i + fuel = numBlocks →
      fsWriteLoop idx src size numBlocks fuel i d ino sb = (0, d') →
      ∃ bs : Nat → Nat,
        (∀ j, i ≤ j → j < numBlocks →
            10 ≤ bs j ∧ bs j < MAX_BLOCKS ∧ d.bitmap (bs j) = false) ∧
        (∀ j k, i ≤ j → j < k → k < numBlocks → bs j ≠ bs k) ∧
        (∀ j, i ≤ j → j < numBlocks → d'.bitmap (bs j) = true) ∧
        (∀ x : Nat, (∀ j, i ≤ j → j < numBlocks → bs j ≠ x) →
            d'.bitmap x = d.bitmap x) ∧
        (countFreeBits d'.bitmap + fuel = countFreeBits d.bitmap) ∧
        d'.sb = { sb with free_blocks := sb.free_blocks - (fuel : Int) } ∧
        ((d'.inodes idx).used = true ∧ (d'.inodes idx).name = ino.name ∧
          (d'.inodes idx).size = size) ∧
        (∀ j, (d'.inodes idx).blocks j
            = if i ≤ j ∧ j < numBlocks then ((bs j : Nat) : Int) else ino.blocks j) ∧
        (∀ t, t ≠ idx → d'.inodes t = d.inodes t) ∧
        (∀ j, i ≤ j → j < numBlocks → ∀ off, off < cntFor size numBlocks j →
            d'.data (bs j) off = src (j * BLOCK_SIZE + off)) ∧
        (∀ x : Nat, d.bitmap x = true → d'.data x = d.data x) := by
  intro fuel
  induction fuel with
  | zero =>
    intro i d ino sb d' hi h
    simp only [fsWriteLoop] at h
    injection h with h1 h2
    refine ⟨fun _ => 0, ?_, ?_, ?_, ?_, ?_, ?_, ?_, ?_, ?_, ?_, ?_⟩
    · intro j hj1 hj2
      omega
    · intro j k hj hjk hk
      omega
    · intro j hj1 hj2
      omega
    · intro x _
      rw [← h2, writeSB_bitmap, writeInode_bitmap]
    · rw [← h2, writeSB_bitmap, writeInode_bitmap]
      omega
    · rw [← h2]
      show sb = _
      cases sb
      simp
    · rw [← h2, writeSB_inodes, writeInode_inodes, Function.update_same]
      exact ⟨rfl, rfl, rfl⟩
    · intro j
      rw [← h2, writeSB_inodes, writeInode_inodes, Function.update_same]
      show ino.blocks j = _
      rw [if_neg (by omega)]
    · intro t ht
      rw [← h2, writeSB_inodes, writeInode_inodes, Function.update_noteq ht]
    · intro j hj1 hj2
      omega
    · intro x _
      rw [← h2]
      rfl
  | succ n ih =>
    intro i d ino sb d' hi h
    simp only [fsWriteLoop] at h
    rcases hfb : findFreeBlock d with ⟨blk, d1⟩
    rw [hfb] at h
    simp only at h
    by_cases hneg : blk < 0
    · rw [if_pos hneg] at h
      injection h with h1 _
      exact absurd h1 (by decide)
    · rw [if_neg hneg] at h
      obtain ⟨b, hblk, hd1, h10, hlt, hfree_b⟩ :=
        findFreeBlock_nonneg d blk d1 hfb (by omega)
      subst hblk
      rw [hd1] at h
      have hiB : i < numBlocks := by omega
      have hbm3 : (writeData (markBlockUsed d ((b : Nat) : Int)) ((b : Nat) : Int).toNat
          (fun off => src (i * BLOCK_SIZE + off)) (cntFor size numBlocks i)).bitmap
          = Function.update d.bitmap b true := by
        rw [writeData_bitmap, markBlockUsed_bitmap_in _ _ (by omega) (by omega),
          Int.toNat_natCast]
      obtain ⟨bs', hfree', hdist', hset', hkeep', hcnt', hsb', hmeta', hblk', hoth', hdat', hfrm'⟩ :=
        ih (i + 1) _ _ _ d' (by omega) h
      have hfree'' : ∀ j, i + 1 ≤ j → j < numBlocks →
          10 ≤ bs' j ∧ bs' j < MAX_BLOCKS ∧ bs' j ≠ b ∧ d.bitmap (bs' j) = false := by
        intro j hj1 hj2
        obtain ⟨a1, a2, a3⟩ := hfree' j hj1 hj2
        rw [hbm3, Function.update_apply] at a3
        by_cases hb : bs' j = b
        · rw [if_pos hb] at a3
          cases a3
        · rw [if_neg hb] at a3
          exact ⟨a1, a2, hb, a3⟩
      refine ⟨fun j => if j = i then b else bs' j, ?_, ?_, ?_, ?_, ?_, ?_, ?_, ?_, ?_, ?_, ?_⟩
      · intro j hj1 hj2
        dsimp only
        by_cases hji : j = i
        · simp only [hji, if_pos rfl]
          exact ⟨h10, hlt, hfree_b⟩
        · rw [if_neg hji]
          obtain ⟨a1, a2, _, a4⟩ := hfree'' j (by omega) hj2
          exact ⟨a1, a2, a4⟩
      · intro j k hj hjk hk
        dsimp only
        by_cases hji : j = i
        · rw [if_pos hji, if_neg (by omega)]
          obtain ⟨_, _, hb, _⟩ := hfree'' k (by omega) hk
          exact fun hc => hb hc.symm
        · rw [if_neg hji, if_neg (by omega)]
          exact hdist' j k (by omega) hjk hk
      · intro j hj1 hj2
        dsimp only
        by_cases hji : j = i
        · rw [if_pos hji]
          have : ∀ k, i + 1 ≤ k → k < numBlocks → bs' k ≠ b := by
            intro k hk1 hk2
            exact (hfree'' k hk1 hk2).2.2.1
          rw [hkeep' b this, hbm3, Function.update_same]
        · rw [if_neg hji]
          exact hset' j (by omega) hj2
      · intro x hx
        dsimp only at hx
        have hxb : b ≠ x := by
          have := hx i (Nat.le_refl i) hiB
          rw [if_pos rfl] at this
          exact this
        have hx' : ∀ j, i + 1 ≤ j → j < numBlocks → bs' j ≠ x := by
          intro j hj1 hj2
          have := hx j (by omega) hj2
          rw [if_neg (by omega)] at this
          exact this
        rw [hkeep' x hx', hbm3, Function.update_noteq (fun hc => hxb hc.symm)]
      · rw [hbm3] at hcnt'
        have := countFreeBits_update_true d.bitmap b h10 hlt hfree_b
        omega
      · rw [hsb']
        show _ = ({ sb with free_blocks := sb.free_blocks - ((n : Int) + 1) } : superblock)
        simp only [superblock.mk.injEq, true_and, and_true]
        ring
      · exact ⟨hmeta'.1, hmeta'.2.1, hmeta'.2.2⟩
      · intro j
        dsimp only
        rw [hblk' j]
        dsimp only
        by_cases hji : j = i
        · subst hji
          rw [if_neg (by omega), if_pos ⟨Nat.le_refl j, hiB⟩, if_pos rfl,
            Function.update_same]
        · by_cases hj2 : i + 1 ≤ j ∧ j < numBlocks
          · rw [if_pos hj2, if_pos (by omega), if_neg hji]
          · rw [if_neg hj2, if_neg (by omega), Function.update_noteq hji]
      · intro t ht
        rw [hoth' t ht, writeData_inodes, markBlockUsed_inodes]
      · intro j hj1 hj2 off hoff
        dsimp only
        by_cases hji : j = i
        · subst hji
          rw [if_pos rfl]
          have hset : (writeData (markBlockUsed d ((b : Nat) : Int)) ((b : Nat) : Int).toNat
              (fun o => src (j * BLOCK_SIZE + o)) (cntFor size numBlocks j)).bitmap b
              = true := by
            rw [hbm3, Function.update_same]
          rw [hfrm' b hset, Int.toNat_natCast]
          exact writeData_data_same _ _ _ _ _ hoff
        · rw [if_neg hji]
          exact hdat' j (by omega) hj2 off hoff
      · intro x hx
        have hxb : x ≠ b := by
          intro hc
          rw [hc, hfree_b] at hx
          cases hx
        have hx3 : (writeData (markBlockUsed d ((b : Nat) : Int)) ((b : Nat) : Int).toNat
            (fun o => src (i * BLOCK_SIZE + o)) (cntFor size numBlocks i)).bitmap x
            = true := by
          rw [hbm3, Function.update_noteq hxb]
          exact hx
        rw [hfrm' x hx3]
        rw [writeData_data_other _ _ _ _ x (by rw [Int.toNat_natCast]; exact hxb),
          markBlockUsed_data]
